import Mathlib

/-!
Verification development for the shared-memory collective-communication
(SHM CCL) layer declared in kernels/cpu/torch_bindings.cpp of the
aphrodite-engine CPU extension.

The binding file declares the interface (init_shm_manager, join_shm_manager,
shm_allreduce, shm_gather, shm_all_gather, shm_send_tensor_list,
shm_recv_tensor_list) and registers the operator schemas; the kernel bodies
live in translation units outside this excerpt, so the operational behaviour
of the collectives is modelled from the specification text, while the
registration table and the operator schemas are embedded directly from
torch_bindings.cpp.
-/

namespace ShmCcl

/-- Modelled from the spec: a rank slot is a fixed-size region within the
segment holding a data buffer plus synchronization metadata (a ready flag).
The payload element type is abstract. -/
structure Slot (α : Type) where
  ready : Bool
  buf : List α
deriving Repr, DecidableEq

/-- Modelled from the spec: a shared-memory segment is a sequence of rank
slots, one per rank. -/
structure ShmSegment (α : Type) where
  slots : List (Slot α)
deriving Repr, DecidableEq

/-- A slot whose ready flag is clear and whose buffer is empty. -/
def emptySlot {α : Type} : Slot α := ⟨false, []⟩

/-- Modelled from the spec: the segment allocator sizes a fresh segment for
exactly group_size ranks, all ready flags clear. -/
def initSegment (α : Type) (group_size : Nat) : ShmSegment α :=
  ⟨List.replicate group_size emptySlot⟩

/-- Read slot i of a segment (the empty, not-ready slot when out of range). -/
def getSlot {α : Type} (seg : ShmSegment α) (i : Nat) : Slot α :=
  seg.slots.getD i emptySlot

/-- Modelled from the spec: the Publish step of a collective — the writer
copies its payload into its own slot and sets the ready flag. Only the
writer's own slot is touched. -/
def publish {α : Type} (seg : ShmSegment α) (rank : Nat) (d : List α) : ShmSegment α :=
  ⟨seg.slots.set rank ⟨true, d⟩⟩

/-- Ranks r, r+1, ... publish the given payloads, one rank per payload. -/
def publishFrom {α : Type} (seg : ShmSegment α) (r : Nat) : List (List α) → ShmSegment α
  | [] => seg
  | d :: rest => publishFrom (publish seg r d) (r + 1) rest

/-- The segment state after every rank 0..group_size-1 has published its
payload (group_size = bufs.length). -/
def publishAll {α : Type} (bufs : List (List α)) : ShmSegment α :=
  publishFrom (initSegment α bufs.length) 0 bufs

/-- All ranks' ready flags are observed set. -/
def allReady {α : Type} (seg : ShmSegment α) : Bool :=
  seg.slots.all (·.ready)

/-- Rank i's ready flag is observed set. -/
def slotReady {α : Type} (seg : ShmSegment α) (i : Nat) : Bool :=
  (getSlot seg i).ready

/-- Element-wise sum of two buffers. -/
def elemAdd (a b : List Int) : List Int := List.zipWith (· + ·) a b

/-- Modelled from the spec: the reduction of shm_allreduce — the element-wise
sum across all slots, accumulated in fixed rank order 0..group_size-1. -/
def reduceSlots : List (List Int) → List Int
  | [] => []
  | b :: rest => rest.foldl elemAdd b

/-- Modelled from the spec: the Consume phase of shm_allreduce at one rank,
after all ranks have published — the rank overwrites its data buffer with the
element-wise sum across all group_size slots, read in rank order. Every rank
performs the identical fixed-order reduction. -/
def shm_allreduce (seg : ShmSegment Int) (rank : Nat) : List Int :=
  reduceSlots (seg.slots.map (·.buf))

/-- Modelled from the spec: the Consume phase of shm_all_gather at one rank,
after all ranks have published — the rank assembles all ranks' data into the
output buffer ordered by rank index (rank 0's data at offset 0, rank 1's at
the next offset, and so on). -/
def shm_all_gather (seg : ShmSegment Int) (rank : Nat) : List Int :=
  (seg.slots.map (·.buf)).flatten

/-- Byte offset of rank i's data inside the all-gather output: the total
length of the payloads of ranks 0..i-1. -/
def rankOffset (bufs : List (List Int)) (i : Nat) : Nat :=
  ((bufs.take i).map List.length).sum

/-- Modelled from the spec: shm_gather at one rank — every rank publishes
data; only rank dst additionally copies every rank's slot into the
corresponding entry of outputs; non-dst ranks perform the publish step only
and leave outputs untouched. Returns the new segment and the new outputs. -/
def shm_gather (seg : ShmSegment Int) (myRank : Nat) (data : List Int)
    (outputs : Option (List (List Int))) (dst : Nat) :
    ShmSegment Int × Option (List (List Int)) :=
  let seg' := publish seg myRank data
  if myRank = dst then (seg', some (seg'.slots.map (·.buf)))
  else (seg', outputs)

/-- Modelled from the spec: the wire format of shm_send_tensor_list — the
sender publishes a count followed by each payload's byte length and
content. -/
def encodeTensorList (tensor_list : List (List Nat)) : List Nat :=
  tensor_list.length :: tensor_list.flatMap (fun t => t.length :: t)

/-- Read n length-prefixed payloads from a byte stream. -/
def decodePayloads : Nat → List Nat → Option (List (List Nat))
  | 0, _ => some []
  | _ + 1, [] => none
  | n + 1, len :: rest =>
    if len ≤ rest.length then
      match decodePayloads n (rest.drop len) with
      | some ts => some (rest.take len :: ts)
      | none => none
    else none

/-- Modelled from the spec: the receiver of shm_recv_tensor_list reconstructs
the sequence from the count and the length-prefixed payloads, in order. -/
def decodeTensorList (bytes : List Nat) : Option (List (List Nat)) :=
  match bytes with
  | [] => none
  | count :: rest => decodePayloads count rest

/-- Modelled from the spec: shm_send_tensor_list publishes the encoded
sequence into the sender's slot and sets its ready flag. -/
def shm_send_tensor_list (seg : ShmSegment Nat) (sender : Nat)
    (tensor_list : List (List Nat)) : ShmSegment Nat :=
  publish seg sender (encodeTensorList tensor_list)

/-- Modelled from the spec: shm_recv_tensor_list blocks until the sender's
ready flag is set (modelled: none while the flag is clear), then reconstructs
the sequence from the sender's slot. -/
def shm_recv_tensor_list (seg : ShmSegment Nat) (src : Nat) :
    Option (List (List Nat)) :=
  if slotReady seg src then decodeTensorList (getSlot seg src).buf else none

/-- Modelled from the spec: the Wait phase — the caller spins/polls the
segment until the readiness condition is observed, with no timeout. env t is
the segment state at the t-th poll; fuel bounds how many polls we observe
(the model of an unbounded spin: none for every fuel = never returns). -/
def spinWait {α : Type} (done : ShmSegment α → Bool) (env : Nat → ShmSegment α) :
    Nat → Option (ShmSegment α)
  | 0 => none
  | fuel + 1 =>
    if done (env 0) then some (env 0)
    else spinWait done (fun t => env (t + 1)) fuel

/-- The full blocking shm_allreduce call at one rank: spin until every
rank's ready flag is observed set, then reduce. -/
def shm_allreduce_call (env : Nat → ShmSegment Int) (rank fuel : Nat) :
    Option (List Int) :=
  (spinWait allReady env fuel).map (fun s => shm_allreduce s rank)

/-- The full blocking shm_all_gather call at one rank. -/
def shm_all_gather_call (env : Nat → ShmSegment Int) (rank fuel : Nat) :
    Option (List Int) :=
  (spinWait allReady env fuel).map (fun s => shm_all_gather s rank)

/-- The full shm_gather call at one rank: rank dst blocks until all ready
flags are observed; every other rank publishes and returns at once, without
polling. -/
def shm_gather_call (env : Nat → ShmSegment Int) (myRank : Nat)
    (data : List Int) (outputs : Option (List (List Int))) (dst fuel : Nat) :
    Option (ShmSegment Int × Option (List (List Int))) :=
  if myRank = dst then
    (spinWait allReady env fuel).map (fun s => shm_gather s myRank data outputs dst)
  else some (shm_gather (env 0) myRank data outputs dst)

/-- The full blocking shm_recv_tensor_list call: spin until the sender's
ready flag is observed set, then decode. -/
def shm_recv_call (env : Nat → ShmSegment Nat) (src fuel : Nat) :
    Option (List (List Nat)) :=
  (spinWait (fun s => slotReady s src) env fuel).bind
    (fun s => shm_recv_tensor_list s src)

/-- Error kinds of the manager, from the specification's error design. -/
inductive ShmError where
  | resourceError
  | invalidArgumentError
deriving Repr, DecidableEq

/-- Modelled from the spec: the rendezvous registry entry for one named
segment — its name, the group_size it was sized for, and the ranks that have
already joined it. -/
structure SegmentInfo where
  name : String
  group_size : Int
  joinedRanks : List Int
deriving Repr, DecidableEq

/-- Modelled from the spec: the rendezvous registry mapping names to live
segments; the handle of a segment is its index. -/
structure ShmRegistry where
  segments : List SegmentInfo
deriving Repr, DecidableEq

/-- Look a name up in the registry, returning its handle and entry. -/
def findSeg : List SegmentInfo → String → Option (Nat × SegmentInfo)
  | [], _ => none
  | s :: rest, n =>
    if s.name = n then some (0, s)
    else
      match findSeg rest n with
      | some (i, s') => some (i + 1, s')
      | none => none

/-- Modelled from the spec: init_shm_manager(name, group_size, rank) creates
or attaches to a named segment and returns an integer handle. osOk abstracts
the OS shared-memory layer: it is false exactly when the segment cannot be
created or attached (name collision with incompatible size, insufficient
shared-memory quota), which surfaces as resourceError. A joiner whose rank or
group_size is inconsistent with the ranks already joined to the named entry
gets invalidArgumentError. The error is the immediate, synchronous result —
no branch retries. -/
def init_shm_manager (osOk : Bool) (reg : ShmRegistry) (name : String)
    (group_size rank : Int) : Except ShmError (ShmRegistry × Int) :=
  if group_size < 1 ∨ rank < 0 ∨ group_size ≤ rank then
    .error .invalidArgumentError
  else if ¬ osOk then .error .resourceError
  else
    match findSeg reg.segments name with
    | some (i, info) =>
      if info.group_size ≠ group_size ∨ rank ∈ info.joinedRanks then
        .error .invalidArgumentError
      else
        .ok (⟨reg.segments.set i ⟨info.name, info.group_size, rank :: info.joinedRanks⟩⟩,
             (i : Int))
    | none =>
      .ok (⟨reg.segments ++ [⟨name, group_size, [rank]⟩]⟩, (reg.segments.length : Int))

/-- Modelled from the spec: join_shm_manager(handle, name) confirms
attachment to the named segment and returns the name on success. -/
def join_shm_manager (reg : ShmRegistry) (handle : Int) (name : String) :
    Except ShmError String :=
  if 0 ≤ handle ∧ handle.toNat < reg.segments.length then
    if (reg.segments.getD handle.toNat ⟨"", 1, []⟩).name = name then .ok name
    else .error .invalidArgumentError
  else .error .invalidArgumentError

/-- The seven operations of the SHM CCL interface, as named in the
registration block of torch_bindings.cpp. -/
def shmOps : List String :=
  ["init_shm_manager", "join_shm_manager", "shm_allreduce", "shm_gather",
   "shm_all_gather", "shm_send_tensor_list", "shm_recv_tensor_list"]

/-- The operator names registered in the ops dispatch table by
TORCH_LIBRARY_EXPAND(TORCH_EXTENSION_NAME, ops) in torch_bindings.cpp, in
registration order. The two conditional blocks (the AVX-512 quantization ops
and the SHM CCL block) are guarded by #ifdef AVX512F, embedded here as the
avx512f flag. -/
def registeredOps (avx512f : Bool) : List String :=
  ["paged_attention_v1", "paged_attention_v2", "silu_and_mul", "gelu_and_mul",
   "gelu_tanh_and_mul", "gelu_new", "gelu_fast", "gelu_quick", "rms_norm",
   "fused_add_rms_norm", "rotary_embedding"]
  ++ (if avx512f then
        ["static_scaled_int8_quant", "dynamic_scaled_int8_quant",
         "cutlass_scaled_mm", "cutlass_scaled_mm_azp"]
      else [])
  ++ (if avx512f then shmOps else [])

/-- One argument of an operator schema string: its type annotation as written
(including alias and mutation marks) and its name. -/
structure SchemaArg where
  typeStr : String
  argName : String
deriving Repr, DecidableEq

/-- Whether a character list carries the mutation mark '!'. -/
def hasBang : List Char → Bool
  | [] => false
  | c :: rest => if c = '!' then true else hasBang rest

/-- A schema argument is marked mutated exactly when its type annotation
carries the mark '!'. -/
def argMutates (a : SchemaArg) : Bool := hasBang a.typeStr.data

/-- Look an argument up in a schema by name and report its mutation mark. -/
def schemaArgMutates (schema : List SchemaArg) (n : String) : Option Bool :=
  (schema.find? (fun a => a.argName == n)).map argMutates

/-- Schema of shm_allreduce from torch_bindings.cpp:
"shm_allreduce(int handle, Tensor! data) -> ()". -/
def shm_allreduce_schema : List SchemaArg :=
  [⟨"int", "handle"⟩, ⟨"Tensor!", "data"⟩]

/-- Schema of shm_gather from torch_bindings.cpp:
"shm_gather(int handle, Tensor data, Tensor[](a!)? outputs, int dst) -> ()". -/
def shm_gather_schema : List SchemaArg :=
  [⟨"int", "handle"⟩, ⟨"Tensor", "data"⟩, ⟨"Tensor[](a!)?", "outputs"⟩,
   ⟨"int", "dst"⟩]

/-- Schema of shm_all_gather from torch_bindings.cpp:
"shm_all_gather(int handle, Tensor data, Tensor! output) -> ()". -/
def shm_all_gather_schema : List SchemaArg :=
  [⟨"int", "handle"⟩, ⟨"Tensor", "data"⟩, ⟨"Tensor!", "output"⟩]

/-- Schema of shm_send_tensor_list from torch_bindings.cpp:
"shm_send_tensor_list(int handle, Tensor[](a) tensor_list, int dst) -> ()". -/
def shm_send_tensor_list_schema : List SchemaArg :=
  [⟨"int", "handle"⟩, ⟨"Tensor[](a)", "tensor_list"⟩, ⟨"int", "dst"⟩]

/-- Schema of shm_recv_tensor_list from torch_bindings.cpp:
"shm_recv_tensor_list(int handle, int src) -> Tensor[](a)". -/
def shm_recv_tensor_list_schema : List SchemaArg :=
  [⟨"int", "handle"⟩, ⟨"int", "src"⟩]

/-- C++ parameter kinds of the declarations in torch_bindings.cpp. -/
inductive CppParamKind where
  | constRef
  | mutRef
  | scalar
  | constOptVecRef
  | constVecRef
deriving Repr, DecidableEq

/-- A C++ parameter through which the callee cannot write. -/
def cppParamReadOnly : CppParamKind → Bool
  | .constRef => true
  | .constOptVecRef => true
  | .constVecRef => true
  | .mutRef => false
  | .scalar => true

/-- Parameters of the C++ declaration
void shm_all_gather(int64_t handle, const torch::Tensor& data,
torch::Tensor& output) in torch_bindings.cpp (lines 36-37). -/
def shm_all_gather_cppParams : List CppParamKind :=
  [.scalar, .constRef, .mutRef]

/-- Modelled from the spec: the per-rank memory effect of shm_all_gather —
the call publishes data into the rank's own slot and assembles the output
buffer; the data buffer is only read. Returns (segment, data, output) after
the call, with outPrev the output buffer's contents before the call. -/
def shm_all_gather_mem (seg : ShmSegment Int) (rank : Nat)
    (data outPrev : List Int) : ShmSegment Int × List Int × List Int :=
  let seg' := publish seg rank data
  (seg', data, (seg'.slots.map (·.buf)).flatten)

/-! ## Helper lemmas -/

theorem publishFrom_slots {α : Type} :
    ∀ (bufs : List (List α)) (pre tl : List (Slot α)),
    tl.length = bufs.length →
    (publishFrom ⟨pre ++ tl⟩ pre.length bufs).slots
      = pre ++ bufs.map (fun d => (⟨true, d⟩ : Slot α))
  | [], pre, tl, h => by
    have htl : tl = [] := List.eq_nil_of_length_eq_zero (by simpa using h)
    simp [publishFrom, htl]
  | d :: rest, pre, tl, h => by
    cases tl with
    | nil => simp at h
    | cons s tl' =>
      have hseg : publish ⟨pre ++ s :: tl'⟩ pre.length d
          = ⟨(pre ++ [(⟨true, d⟩ : Slot α)]) ++ tl'⟩ := by
        simp [publish, List.set_append_right _ _ (Nat.le_refl pre.length)]
      have hlen : (pre ++ [(⟨true, d⟩ : Slot α)]).length = pre.length + 1 := by simp
      have hrec := publishFrom_slots rest (pre ++ [(⟨true, d⟩ : Slot α)]) tl'
        (by simpa using h)
      rw [publishFrom, hseg, ← hlen, hrec]
      simp

theorem publishAll_slots {α : Type} (bufs : List (List α)) :
    (publishAll bufs).slots = bufs.map (fun d => (⟨true, d⟩ : Slot α)) :=
  publishFrom_slots bufs [] (List.replicate bufs.length emptySlot)
    (List.length_replicate ..)

theorem elemAdd_length (a b : List Int) :
    (elemAdd a b).length = min a.length b.length := by
  simp [elemAdd]

theorem elemAdd_getD : ∀ (a b : List Int) (j : Nat), j < a.length → j < b.length →
    (elemAdd a b).getD j 0 = a.getD j 0 + b.getD j 0
  | [], _, j, h1, _ => absurd h1 (by simp)
  | _ :: _, [], j, _, h2 => absurd h2 (by simp)
  | x :: _, y :: _, 0, _, _ => rfl
  | _ :: a', _ :: b', j + 1, h1, h2 =>
    elemAdd_getD a' b' j (by simpa using h1) (by simpa using h2)

theorem foldl_elemAdd_length : ∀ (rest : List (List Int)) (b : List Int),
    (∀ x ∈ rest, x.length = b.length) →
    (rest.foldl elemAdd b).length = b.length
  | [], _, _ => rfl
  | x :: rest', b, h => by
    have hx : x.length = b.length := h x (by simp)
    have hab : (elemAdd b x).length = b.length := by
      rw [elemAdd_length, hx]; omega
    rw [List.foldl_cons,
        foldl_elemAdd_length rest' (elemAdd b x)
          (fun y hy => by rw [h y (List.mem_cons_of_mem _ hy), hab]),
        hab]

theorem foldl_elemAdd_getD : ∀ (rest : List (List Int)) (b : List Int) (j : Nat),
    (∀ x ∈ rest, x.length = b.length) → j < b.length →
    (rest.foldl elemAdd b).getD j 0
      = b.getD j 0 + (rest.map (fun x => x.getD j 0)).sum
  | [], _, _, _, _ => by simp
  | x :: rest', b, j, h, hj => by
    have hx : x.length = b.length := h x (by simp)
    have hab : (elemAdd b x).length = b.length := by
      rw [elemAdd_length, hx]; omega
    rw [List.foldl_cons,
        foldl_elemAdd_getD rest' (elemAdd b x) j
          (fun y hy => by rw [h y (List.mem_cons_of_mem _ hy), hab])
          (by omega),
        elemAdd_getD b x j hj (by omega)]
    simp [Int.add_assoc]

theorem getSlot_publish_self {α : Type} (seg : ShmSegment α) (r : Nat)
    (d : List α) (h : r < seg.slots.length) :
    getSlot (publish seg r d) r = ⟨true, d⟩ := by
  simp [getSlot, publish, List.getD_eq_getElem?_getD, List.getElem?_set_self h]

theorem getSlot_publish_ne {α : Type} (seg : ShmSegment α) (r : Nat)
    (d : List α) (j : Nat) (h : j ≠ r) :
    getSlot (publish seg r d) j = getSlot seg j := by
  simp [getSlot, publish, List.getD_eq_getElem?_getD,
        List.getElem?_set_ne (Ne.symm h)]

theorem spinWait_stuck {α : Type} (done : ShmSegment α → Bool) :
    ∀ (fuel : Nat) (env : Nat → ShmSegment α),
    (∀ t, done (env t) = false) → spinWait done env fuel = none
  | 0, _, _ => rfl
  | fuel + 1, env, h => by
    rw [spinWait, h 0]
    simpa using spinWait_stuck done fuel (fun t => env (t + 1)) (fun t => h (t + 1))

theorem spinWait_sound {α : Type} (done : ShmSegment α → Bool) :
    ∀ (fuel : Nat) (env : Nat → ShmSegment α) (s : ShmSegment α),
    spinWait done env fuel = some s →
    done s = true ∧ ∃ t, t < fuel ∧ s = env t
  | 0, _, _, h => by simp [spinWait] at h
  | fuel + 1, env, s, h => by
    rw [spinWait] at h
    by_cases hd : done (env 0)
    · rw [if_pos hd] at h
      injection h with h'
      exact ⟨h' ▸ hd, 0, by omega, h'.symm⟩
    · rw [if_neg hd] at h
      obtain ⟨hdone, t, ht, hs⟩ := spinWait_sound done fuel _ s h
      exact ⟨hdone, t + 1, by omega, hs⟩

theorem allReady_eq_false {α : Type} (seg : ShmSegment α) (p : Nat)
    (hp : p < seg.slots.length) (h : slotReady seg p = false) :
    allReady seg = false := by
  cases hall : allReady seg with
  | false => rfl
  | true =>
    exfalso
    rw [allReady, List.all_eq_true] at hall
    have hget : getSlot seg p = seg.slots[p] := by
      simp [getSlot, List.getD_eq_getElem?_getD, List.getElem?_eq_getElem hp]
    have := hall seg.slots[p] (seg.slots.getElem_mem hp)
    rw [slotReady, hget, this] at h
    simp at h

theorem flatten_getD : ∀ (bufs : List (List Int)) (i j : Nat),
    i < bufs.length → j < (bufs.getD i []).length →
    bufs.flatten.getD (rankOffset bufs i + j) 0 = (bufs.getD i []).getD j 0
  | [], i, _, hi, _ => absurd hi (by simp)
  | b :: rest, 0, j, _, hj => by
    have hj' : j < b.length := by simpa using hj
    simp only [rankOffset, List.take_zero, List.map_nil, List.sum_nil,
               Nat.zero_add, List.flatten_cons, List.getD_cons_zero] at *
    rw [List.getD_eq_getElem?_getD, List.getElem?_append_left hj',
        ← List.getD_eq_getElem?_getD]
  | b :: rest, i + 1, j, hi, hj => by
    have hoff : rankOffset (b :: rest) (i + 1) = b.length + rankOffset rest i := by
      simp [rankOffset, List.take_succ_cons]
    rw [hoff, List.flatten_cons, Nat.add_assoc, List.getD_eq_getElem?_getD,
        List.getElem?_append_right (Nat.le_add_right ..), Nat.add_sub_cancel_left,
        ← List.getD_eq_getElem?_getD, List.getD_cons_succ]
    rw [List.getD_cons_succ] at hj
    exact flatten_getD rest i j (by simpa using hi) hj

theorem decodePayloads_encode : ∀ (L : List (List Nat)),
    decodePayloads L.length (L.flatMap (fun t => t.length :: t)) = some L
  | [] => rfl
  | t :: rest => by
    rw [List.flatMap_cons, List.length_cons, List.cons_append, decodePayloads]
    rw [if_pos (by simp)]
    rw [List.take_left' rfl, List.drop_left' rfl, decodePayloads_encode rest]

theorem decode_encode (L : List (List Nat)) :
    decodeTensorList (encodeTensorList L) = some L := by
  rw [encodeTensorList, decodeTensorList]
  exact decodePayloads_encode L

theorem list_set_self {α : Type} (l : List α) (r : Nat) (h : r < l.length) :
    l.set r (l.get ⟨r, h⟩) = l := by
  apply List.ext_getElem?
  intro n
  by_cases hn : r = n
  · subst hn
    rw [List.getElem?_set_self h, List.getElem?_eq_getElem h,
        List.get_eq_getElem]
  · rw [List.getElem?_set_ne hn]

theorem publish_publishAll_self (bufs : List (List Int)) (r : Nat)
    (hr : r < bufs.length) :
    publish (publishAll bufs) r (bufs.getD r []) = publishAll bufs := by
  have hslots := publishAll_slots bufs
  have hlen : (publishAll bufs).slots.length = bufs.length := by
    rw [hslots, List.length_map]
  have hr2 : r < (publishAll bufs).slots.length := by omega
  have hval : (⟨true, bufs.getD r []⟩ : Slot Int)
      = (publishAll bufs).slots.get ⟨r, hr2⟩ := by
    rw [List.get_eq_getElem,
        List.getElem_of_eq hslots (by simpa [hslots] using hr2),
        List.getElem_map]
    congr 1
    rw [List.getD_eq_getElem?_getD, List.getElem?_eq_getElem hr]
    rfl
  rw [publish, hval]
  rw [list_set_self (publishAll bufs).slots r hr2]

theorem publishAll_map_buf {α : Type} (bufs : List (List α)) :
    (publishAll bufs).slots.map (·.buf) = bufs := by
  rw [publishAll_slots, List.map_map]
  exact List.map_id ..

/-! ## Claim theorems -/

/-- C1: for a group of group_size ranks each publishing a buffer d_i, after
shm_allreduce every rank's data buffer is the element-wise sum of all
group_size ranks' published buffers (length preserved, entry j equal to the
sum of the d_i at j), with the reduction performed identically — in fixed
rank order 0..group_size-1 — at every rank. -/
theorem shm_allreduce_elementwise_sum (bufs : List (List Int)) (n : Nat)
    (hne : bufs ≠ []) (hn : ∀ b ∈ bufs, b.length = n) (rank : Nat) :
    (shm_allreduce (publishAll bufs) rank).length = n ∧
    (∀ j, j < n → (shm_allreduce (publishAll bufs) rank).getD j 0
        = (bufs.map (fun b => b.getD j 0)).sum) ∧
    ∀ rank', shm_allreduce (publishAll bufs) rank
        = shm_allreduce (publishAll bufs) rank' := by
  cases bufs with
  | nil => exact absurd rfl hne
  | cons b rest =>
    have hmap := publishAll_map_buf (b :: rest)
    have hb : b.length = n := hn b (by simp)
    have hrest : ∀ x ∈ rest, x.length = b.length := fun x hx => by
      rw [hn x (by simp [hx]), hb]
    refine ⟨?_, ?_, fun _ => rfl⟩
    · rw [shm_allreduce, hmap, reduceSlots, foldl_elemAdd_length rest b hrest, hb]
    · intro j hj
      rw [shm_allreduce, hmap, reduceSlots,
          foldl_elemAdd_getD rest b j hrest (by omega)]
      simp

/-- Witness for C1, the spec's concrete scenario: two ranks publish [1, 2]
and [3, 4]; shm_allreduce leaves the buffer [4, 6] at both ranks. -/
theorem shm_allreduce_elementwise_sum_witness :
    (shm_allreduce (publishAll [[1, 2], [3, 4]]) 0).getD 0 0 = 4 ∧
    (shm_allreduce (publishAll [[1, 2], [3, 4]]) 0).getD 1 0 = 6 ∧
    shm_allreduce (publishAll [[1, 2], [3, 4]]) 0
      = shm_allreduce (publishAll [[1, 2], [3, 4]]) 1 := by
  have h := shm_allreduce_elementwise_sum [[1, 2], [3, 4]] 2 (by decide)
    (by decide) 0
  refine ⟨?_, ?_, h.2.2 1⟩
  · rw [h.2.1 0 (by decide)]; decide
  · rw [h.2.1 1 (by decide)]; decide

/-- C3: after shm_all_gather, the output buffer on every rank equals the
concatenation of d_0, ..., d_{group_size-1} in rank order — rank i's data
beginning at offset rankOffset i — and the output is identical on all
ranks. -/
theorem shm_all_gather_concat_in_rank_order (bufs : List (List Int))
    (rank : Nat) :
    shm_all_gather (publishAll bufs) rank = bufs.flatten ∧
    (∀ i j, i < bufs.length → j < (bufs.getD i []).length →
       (shm_all_gather (publishAll bufs) rank).getD (rankOffset bufs i + j) 0
         = (bufs.getD i []).getD j 0) ∧
    ∀ rank', shm_all_gather (publishAll bufs) rank
        = shm_all_gather (publishAll bufs) rank' := by
  have hmap := publishAll_map_buf bufs
  refine ⟨by rw [shm_all_gather, hmap], ?_, fun _ => rfl⟩
  intro i j hi hj
  rw [shm_all_gather, hmap]
  exact flatten_getD bufs i j hi hj

/-- Witness for C3: ranks publish [1] and [2, 3]; every rank's output is
[1, 2, 3], with rank 1's data at offset 1. -/
theorem shm_all_gather_concat_in_rank_order_witness :
    shm_all_gather (publishAll [[1], [2, 3]]) 0 = [1, 2, 3] ∧
    (shm_all_gather (publishAll [[1], [2, 3]]) 0).getD
      (rankOffset [[1], [2, 3]] 1 + 0) 0 = 2 ∧
    shm_all_gather (publishAll [[1], [2, 3]]) 0
      = shm_all_gather (publishAll [[1], [2, 3]]) 1 := by
  have h := shm_all_gather_concat_in_rank_order [[1], [2, 3]] 0
  refine ⟨h.1, ?_, h.2.2 1⟩
  rw [h.2.1 1 0 (by decide) (by decide)]
  decide

/-- C4: after shm_gather, only rank dst has its outputs populated — with
outputs entry i equal to rank i's published buffer for every i — while on
every non-dst rank the outputs argument is left untouched and the call
performs only the publish step, returning without any polling (even with
zero observation fuel). -/
theorem shm_gather_populates_only_dst (bufs : List (List Int))
    (myRank dst : Nat) (outputs : Option (List (List Int)))
    (hr : myRank < bufs.length) :
    (myRank = dst →
       (shm_gather (publishAll bufs) myRank (bufs.getD myRank []) outputs
          dst).2 = some bufs) ∧
    (myRank ≠ dst →
       shm_gather (publishAll bufs) myRank (bufs.getD myRank []) outputs dst
         = (publishAll bufs, outputs)) ∧
    (∀ (seg : ShmSegment Int) (data : List Int), myRank ≠ dst →
       shm_gather seg myRank data outputs dst
         = (publish seg myRank data, outputs)) ∧
    (∀ (env : Nat → ShmSegment Int) (data : List Int) (fuel : Nat),
       myRank ≠ dst →
       shm_gather_call env myRank data outputs dst fuel
         = some (publish (env 0) myRank data, outputs)) := by
  have hpub := publish_publishAll_self bufs myRank hr
  refine ⟨?_, ?_, ?_, ?_⟩
  · intro hd
    rw [shm_gather]
    simp only [hpub, if_pos hd]
    rw [publishAll_map_buf]
  · intro hd
    rw [shm_gather]
    simp only [hpub, if_neg hd]
  · intro seg data hd
    rw [shm_gather]
    simp only [if_neg hd]
  · intro env data fuel hd
    rw [shm_gather_call, if_neg hd, shm_gather]
    simp only [if_neg hd]

/-- Witness for C4: with buffers [1] and [2] and dst = 0, rank 0 receives
outputs [[1], [2]]; rank 1 leaves outputs untouched and returns with zero
fuel. -/
theorem shm_gather_populates_only_dst_witness :
    (shm_gather (publishAll [[1], [2]]) 0 [1] none 0).2 = some [[1], [2]] ∧
    shm_gather (publishAll [[1], [2]]) 1 [2] none 0
      = (publishAll [[1], [2]], none) ∧
    shm_gather_call (fun _ => publishAll [[1], [2]]) 1 [2] none 0 0
      = some (publish (publishAll [[1], [2]]) 1 [2], none) := by
  have h0 := shm_gather_populates_only_dst [[1], [2]] 0 0 none (by decide)
  have h1 := shm_gather_populates_only_dst [[1], [2]] 1 0 none (by decide)
  exact ⟨h0.1 rfl, h1.2.1 (by decide),
         h1.2.2.2 (fun _ => publishAll [[1], [2]]) [2] 0 (by decide)⟩

/-- C2: receiving against a completed shm_send_tensor_list of a list L
yields exactly L back — the same element count, the same per-element
lengths, identical content, in the same order. -/
theorem shm_tensor_list_roundtrip (seg : ShmSegment Nat) (src : Nat)
    (tensor_list : List (List Nat)) (h : src < seg.slots.length) :
    shm_recv_tensor_list (shm_send_tensor_list seg src tensor_list) src
      = some tensor_list := by
  rw [shm_send_tensor_list, shm_recv_tensor_list]
  have hslot := getSlot_publish_self seg src (encodeTensorList tensor_list) h
  rw [slotReady, hslot]
  simp [decode_encode]

/-- Witness for C2, the spec's concrete scenario: the list [[1, 2], [3]] is
sent and received back intact; the empty list also round-trips. -/
theorem shm_tensor_list_roundtrip_witness :
    shm_recv_tensor_list
      (shm_send_tensor_list (initSegment Nat 3) 0 [[1, 2], [3]]) 0
      = some [[1, 2], [3]] ∧
    shm_recv_tensor_list (shm_send_tensor_list (initSegment Nat 3) 1 []) 1
      = some [] :=
  ⟨shm_tensor_list_roundtrip (initSegment Nat 3) 0 [[1, 2], [3]] (by decide),
   shm_tensor_list_roundtrip (initSegment Nat 3) 1 [] (by decide)⟩

/-- C5: under the preconditions 0 ≤ rank < group_size and group_size ≥ 1,
init_shm_manager returns an integer handle; it returns resourceError exactly
when the OS segment cannot be created or attached (name collision with
incompatible size, quota exhaustion — abstracted by osOk = false), and
invalidArgumentError when rank/group_size are inconsistent with the ranks
already joined under the name; each error is the immediate synchronous
result, with no retry branch. -/
theorem init_shm_manager_error_cases (osOk : Bool) (reg : ShmRegistry)
    (name : String) (group_size rank : Int)
    (hgs : 1 ≤ group_size) (hr0 : 0 ≤ rank) (hrg : rank < group_size) :
    (osOk = false →
       init_shm_manager osOk reg name group_size rank
         = .error .resourceError) ∧
    (osOk = true → findSeg reg.segments name = none →
       init_shm_manager osOk reg name group_size rank
         = .ok (⟨reg.segments ++ [⟨name, group_size, [rank]⟩]⟩,
                (reg.segments.length : Int))) ∧
    (∀ i info, osOk = true → findSeg reg.segments name = some (i, info) →
       info.group_size ≠ group_size ∨ rank ∈ info.joinedRanks →
       init_shm_manager osOk reg name group_size rank
         = .error .invalidArgumentError) ∧
    (∀ i info, osOk = true → findSeg reg.segments name = some (i, info) →
       info.group_size = group_size → rank ∉ info.joinedRanks →
       init_shm_manager osOk reg name group_size rank
         = .ok (⟨reg.segments.set i
                  ⟨info.name, info.group_size, rank :: info.joinedRanks⟩⟩,
                (i : Int))) := by
  have hpre : ¬ (group_size < 1 ∨ rank < 0 ∨ group_size ≤ rank) := by
    push_neg
    exact ⟨hgs, hr0, hrg⟩
  refine ⟨?_, ?_, ?_, ?_⟩
  · intro hos
    subst hos
    rw [init_shm_manager, if_neg hpre]
    simp
  · intro hos hfind
    subst hos
    rw [init_shm_manager, if_neg hpre]
    simp [hfind]
  · intro i info hos hfind hbad
    subst hos
    rw [init_shm_manager, if_neg hpre]
    simp only [hfind, Bool.not_true, if_neg (by simp : ¬ (True → False))]
    simp [if_pos hbad]
  · intro i info hos hfind hsz hnew
    subst hos
    rw [init_shm_manager, if_neg hpre]
    simp only [hfind]
    simp [if_neg (by tauto : ¬ (info.group_size ≠ group_size ∨
      rank ∈ info.joinedRanks))]

/-- Witness for C5: creating "seg" in an empty registry with group_size 2,
rank 0 yields handle 0; with the OS layer failing the same call yields
resourceError; and a second rank-0 joiner on the created entry yields
invalidArgumentError. -/
theorem init_shm_manager_error_cases_witness :
    init_shm_manager true ⟨[]⟩ "seg" 2 0
      = .ok (⟨[⟨"seg", 2, [0]⟩]⟩, 0) ∧
    init_shm_manager false ⟨[]⟩ "seg" 2 0 = .error .resourceError ∧
    init_shm_manager true ⟨[⟨"seg", 2, [0]⟩]⟩ "seg" 2 0
      = .error .invalidArgumentError := by
  have h1 := init_shm_manager_error_cases true ⟨[]⟩ "seg" 2 0
    (by decide) (by decide) (by decide)
  have h2 := init_shm_manager_error_cases false ⟨[]⟩ "seg" 2 0
    (by decide) (by decide) (by decide)
  have h3 := init_shm_manager_error_cases true ⟨[⟨"seg", 2, [0]⟩]⟩ "seg" 2 0
    (by decide) (by decide) (by decide)
  refine ⟨h1.2.1 rfl rfl, h2.1 rfl, ?_⟩
  exact h3.2.2.1 0 ⟨"seg", 2, [0]⟩ rfl (by simp [findSeg]) (Or.inr (by simp))

/-- C6: whenever join_shm_manager(handle, name) succeeds, the string it
returns is exactly the name that was passed in; it succeeds on a valid
handle whose registry entry bears that name. -/
theorem join_shm_manager_returns_name (reg : ShmRegistry) (handle : Int)
    (name s : String) :
    (join_shm_manager reg handle name = .ok s → s = name) ∧
    (0 ≤ handle → handle.toNat < reg.segments.length →
     (reg.segments.getD handle.toNat ⟨"", 1, []⟩).name = name →
     join_shm_manager reg handle name = .ok name) := by
  constructor
  · intro h
    rw [join_shm_manager] at h
    by_cases hv : 0 ≤ handle ∧ handle.toNat < reg.segments.length
    · rw [if_pos hv] at h
      by_cases hn : (reg.segments.getD handle.toNat ⟨"", 1, []⟩).name = name
      · rw [if_pos hn] at h
        injection h with h'
        exact h'.symm
      · rw [if_neg hn] at h
        exact absurd h (by simp)
    · rw [if_neg hv] at h
      exact absurd h (by simp)
  · intro h0 hlt hn
    rw [join_shm_manager, if_pos ⟨h0, hlt⟩, if_pos hn]

/-- Witness for C6: joining handle 0 of a registry holding "seg" under that
name returns "seg". -/
theorem join_shm_manager_returns_name_witness :
    join_shm_manager ⟨[⟨"seg", 2, [0]⟩]⟩ 0 "seg" = .ok "seg" :=
  (join_shm_manager_returns_name ⟨[⟨"seg", 2, [0]⟩]⟩ 0 "seg" "seg").2
    (by decide) (by decide) rfl

/-- C7: the collectives and the point-to-point receive are synchronous and
blocking: when a peer's ready flag is never set, shm_allreduce,
shm_all_gather, shm_gather at the destination rank, and shm_recv_tensor_list
return for no amount of polling (no timeout, no error result); and whenever
one of them does complete, the calling rank's data dependency — every ready
flag for the collectives, the sender's flag for receive — was observed
satisfied at some poll; shm_send_tensor_list completes by the publish step
alone. -/
theorem shm_calls_block_without_timeout (fuel : Nat) :
    (∀ (env : Nat → ShmSegment Int) (p : Nat),
       (∀ t, p < (env t).slots.length ∧ slotReady (env t) p = false) →
       (∀ rank, shm_allreduce_call env rank fuel = none) ∧
       (∀ rank, shm_all_gather_call env rank fuel = none) ∧
       (∀ data outputs dst,
          shm_gather_call env dst data outputs dst fuel = none)) ∧
    (∀ (env : Nat → ShmSegment Nat) (src : Nat),
       (∀ t, slotReady (env t) src = false) →
       shm_recv_call env src fuel = none) ∧
    (∀ (env : Nat → ShmSegment Int) (rank : Nat) (out : List Int),
       shm_allreduce_call env rank fuel = some out →
       ∃ t, t < fuel ∧ allReady (env t) = true) ∧
    (∀ (env : Nat → ShmSegment Int) (rank : Nat) (out : List Int),
       shm_all_gather_call env rank fuel = some out →
       ∃ t, t < fuel ∧ allReady (env t) = true) ∧
    (∀ (env : Nat → ShmSegment Nat) (src : Nat) (out : List (List Nat)),
       shm_recv_call env src fuel = some out →
       ∃ t, t < fuel ∧ slotReady (env t) src = true) ∧
    (∀ (seg : ShmSegment Nat) (sender : Nat) (tensor_list : List (List Nat)),
       shm_send_tensor_list seg sender tensor_list
         = publish seg sender (encodeTensorList tensor_list)) := by
  refine ⟨?_, ?_, ?_, ?_, ?_, fun _ _ _ => rfl⟩
  · intro env p h
    have hstuck : spinWait allReady env fuel = none :=
      spinWait_stuck allReady fuel env
        (fun t => allReady_eq_false (env t) p (h t).1 (h t).2)
    exact ⟨fun rank => by rw [shm_allreduce_call, hstuck]; rfl,
           fun rank => by rw [shm_all_gather_call, hstuck]; rfl,
           fun data outputs dst => by
             rw [shm_gather_call, if_pos rfl, hstuck]; rfl⟩
  · intro env src h
    have hstuck : spinWait (fun s => slotReady s src) env fuel = none :=
      spinWait_stuck (fun s => slotReady s src) fuel env h
    rw [shm_recv_call, hstuck]
    rfl
  · intro env rank out h
    rw [shm_allreduce_call] at h
    cases hsw : spinWait allReady env fuel with
    | none => rw [hsw] at h; exact absurd h (by simp)
    | some s =>
      obtain ⟨hdone, t, ht, hs⟩ := spinWait_sound allReady fuel env s hsw
      exact ⟨t, ht, hs ▸ hdone⟩
  · intro env rank out h
    rw [shm_all_gather_call] at h
    cases hsw : spinWait allReady env fuel with
    | none => rw [hsw] at h; exact absurd h (by simp)
    | some s =>
      obtain ⟨hdone, t, ht, hs⟩ := spinWait_sound allReady fuel env s hsw
      exact ⟨t, ht, hs ▸ hdone⟩
  · intro env src out h
    rw [shm_recv_call] at h
    cases hsw : spinWait (fun s => slotReady s src) env fuel with
    | none => rw [hsw] at h; exact absurd h (by simp)
    | some s =>
      obtain ⟨hdone, t, ht, hs⟩ :=
        spinWait_sound (fun s => slotReady s src) fuel env s hsw
      exact ⟨t, ht, hs ▸ hdone⟩

/-- Witness for C7: with two ranks and no flag ever set, an shm_allreduce
observing five polls has not returned, and neither has a receive from the
silent rank 1. -/
theorem shm_calls_block_without_timeout_witness :
    shm_allreduce_call (fun _ => initSegment Int 2) 0 5 = none ∧
    shm_recv_call (fun _ => initSegment Nat 2) 1 5 = none := by
  have h := shm_calls_block_without_timeout 5
  have h02 : 0 < (initSegment Int 2).slots.length := by decide
  have hsr : slotReady (initSegment Int 2) 0 = false := by decide
  have hsrN : slotReady (initSegment Nat 2) 1 = false := by decide
  exact ⟨(h.1 (fun _ => initSegment Int 2) 0 (fun _ => ⟨h02, hsr⟩)).1 0,
         h.2.1 (fun _ => initSegment Nat 2) 1 (fun _ => hsrN)⟩

/-- C8: a segment created for group_size ranks has exactly group_size slots,
and the slot count never changes across publishes; a publishing rank writes
only its own slot, every other slot being untouched; and a consume phase
runs only on a segment state in which the awaited ready flags were observed
set (the spin returns only such a state, and a completed allreduce read the
slots of such a state). -/
theorem shm_slot_invariants :
    (∀ (α : Type) (n : Nat), (initSegment α n).slots.length = n) ∧
    (∀ (α : Type) (seg : ShmSegment α) (r : Nat) (d : List α),
       (publish seg r d).slots.length = seg.slots.length) ∧
    (∀ (α : Type) (seg : ShmSegment α) (r : Nat) (d : List α) (j : Nat),
       j ≠ r → getSlot (publish seg r d) j = getSlot seg j) ∧
    (∀ (α : Type) (done : ShmSegment α → Bool) (env : Nat → ShmSegment α)
       (fuel : Nat) (s : ShmSegment α),
       spinWait done env fuel = some s → done s = true) ∧
    (∀ (env : Nat → ShmSegment Int) (rank fuel : Nat) (out : List Int),
       shm_allreduce_call env rank fuel = some out →
       ∃ t, allReady (env t) = true ∧ out = shm_allreduce (env t) rank) := by
  refine ⟨?_, ?_, ?_, ?_, ?_⟩
  · intro α n
    simp [initSegment]
  · intro α seg r d
    simp [publish]
  · intro α seg r d j h
    exact getSlot_publish_ne seg r d j h
  · intro α done env fuel s h
    exact (spinWait_sound done fuel env s h).1
  · intro env rank fuel out h
    rw [shm_allreduce_call] at h
    cases hsw : spinWait allReady env fuel with
    | none => rw [hsw] at h; exact absurd h (by simp)
    | some s =>
      obtain ⟨hdone, t, _, hs⟩ := spinWait_sound allReady fuel env s hsw
      rw [hsw] at h
      injection h with h'
      exact ⟨t, hs ▸ hdone, hs ▸ h'.symm⟩

/-- Witness for C8: a fresh two-rank segment has two slots; rank 0's publish
leaves rank 1's slot untouched. -/
theorem shm_slot_invariants_witness :
    (initSegment Int 2).slots.length = 2 ∧
    getSlot (publish (initSegment Int 2) 0 [5]) 1
      = getSlot (initSegment Int 2) 1 :=
  ⟨shm_slot_invariants.1 Int 2,
   shm_slot_invariants.2.2.1 Int (initSegment Int 2) 0 [5] 1 (by decide)⟩

/-- C9: every operation of the SHM CCL interface is registered in the ops
dispatch table exactly when the build defines AVX512F: each of the seven
names is in the table of an AVX-512 build and absent from the table of a
build without it. -/
theorem shm_ops_registered_only_with_avx512f :
    ∀ op ∈ shmOps, op ∈ registeredOps true ∧ op ∉ registeredOps false := by
  decide

/-- Witness for C9: shm_allreduce is registered with AVX-512 and absent
without it. -/
theorem shm_ops_registered_only_with_avx512f_witness :
    "shm_allreduce" ∈ registeredOps true ∧
    "shm_allreduce" ∉ registeredOps false :=
  shm_ops_registered_only_with_avx512f "shm_allreduce" (by decide)

/-- C10: shm_all_gather's data argument carries no mutation mark in its
schema and is const in the C++ declaration, while its output argument is
marked mutated; shm_gather's data and shm_send_tensor_list's tensor_list
likewise carry no mutation mark; and in the modelled per-rank memory effect
of shm_all_gather the data buffer after the call is byte-identical to the
data buffer before it. -/
theorem shm_input_buffers_not_mutated :
    schemaArgMutates shm_all_gather_schema "data" = some false ∧
    schemaArgMutates shm_all_gather_schema "output" = some true ∧
    cppParamReadOnly (shm_all_gather_cppParams.getD 1 .mutRef) = true ∧
    schemaArgMutates shm_gather_schema "data" = some false ∧
    schemaArgMutates shm_gather_schema "outputs" = some true ∧
    schemaArgMutates shm_send_tensor_list_schema "tensor_list" = some false ∧
    ∀ (seg : ShmSegment Int) (rank : Nat) (data outPrev : List Int),
      (shm_all_gather_mem seg rank data outPrev).2.1 = data := by
  refine ⟨by decide, by decide, by decide, by decide, by decide, by decide,
          fun _ _ _ _ => rfl⟩

end ShmCcl
